import Mathlib

/-!
Verification of the PG/payment-mode analysis pipeline (`src/app.py`).

The script loads daily transaction CSV batches, concatenates them,
checks required columns, normalizes fields, buckets statuses, groups by
(client_name, client_code, pg_pay_mode, payment_mode), derives success
rates, sorts, styles, and exports a CSV.  We embed each stage as a Lean
definition translated from the Python source and prove the specified
properties about them.
-/

namespace PipeAnalysis

/-! ### Python string primitives

The script manipulates cell values with `str.strip()`, `str.lower()` and
the substring test `needle in hay`.  We model strings over their
character lists.  `Char.toLower` (ASCII case folding) and
`Char.isWhitespace` stand in for Python's Unicode versions; all data the
claims touch is ASCII. -/

/-- Python `str.lower()`: lower-case every character. -/
def pyLower (s : String) : String := ⟨s.data.map Char.toLower⟩

/-- Python `str.strip()`: drop leading and trailing whitespace. -/
def pyStrip (s : String) : String :=
  ⟨((s.data.dropWhile Char.isWhitespace).reverse.dropWhile Char.isWhitespace).reverse⟩

/-- Substring test on character lists: does `n` occur contiguously in the list? -/
def isSubChars (n : List Char) : List Char → Bool
  | [] => n.isEmpty
  | c :: cs => n.isPrefixOf (c :: cs) || isSubChars n cs

/-- Python `needle in hay` on strings. -/
def pyIn (needle hay : String) : Bool := isSubChars needle.data hay.data

/-! ### Row Normalizer (`src/app.py` lines 101–121) -/

/-- Translation of `normalize_status` (lines 112–118): lower-case and strip
the value, then bucket by substring containment, checking `"success"`
before `"fail"`. -/
def normalize_status (val : String) : String :=
  let val := pyStrip (pyLower val)
  if pyIn "success" val then "success"
  else if pyIn "fail" val then "failed"
  else "other"

/-- The required columns of line 95. -/
def required_cols : List String := ["client_code", "pg_pay_mode", "payment_mode", "status"]

/-- A loaded batch: a pandas `DataFrame` abstracted as a column-name list
plus rows of cell strings aligned with those columns.  All cells are kept
as strings, matching the script's `astype(str)` casts. -/
structure DataFrame where
  cols : List String
  rows : List (List String)
deriving DecidableEq

/-- Cell lookup: the value of column `c` in `row`, or `"nan"` when the
column is absent (a pandas `NaN` prints as `"nan"` after `astype(str)`,
which is how every cell is read downstream). -/
def getCell (cols : List String) (row : List String) (c : String) : String :=
  match cols.findIdx? (fun x => x == c) with
  | some i => row.getD i "nan"
  | none => "nan"

/-- Translation of `pd.concat(all_data, ignore_index=True)` (line 92):
the column set is the union of the batches' columns (first-seen order)
and every row is re-indexed to that set, absent cells becoming `"nan"`. -/
def concatDF (batches : List DataFrame) : DataFrame :=
  let cols := batches.foldl (fun acc b => acc ++ b.cols.filter (fun c => decide (c ∉ acc))) []
  { cols := cols,
    rows := (batches.map (fun b => b.rows.map (fun r => cols.map (getCell b.cols r)))).flatten }

/-- A normalized record (lines 101–120): `client_name` defaulted to
`"Unknown"` when the column is absent, text fields stripped, and the
status stripped, lower-cased and bucketed by `normalize_status`. -/
structure NRecord where
  client_name : String
  client_code : String
  pg_pay_mode : String
  payment_mode : String
  status : String
deriving DecidableEq

/-- Normalization of one row of the concatenated frame (lines 101–120). -/
def toRecord (cols : List String) (row : List String) : NRecord :=
  { client_name := pyStrip (if "client_name" ∈ cols then getCell cols row "client_name" else "Unknown"),
    client_code := pyStrip (getCell cols row "client_code"),
    pg_pay_mode := pyStrip (getCell cols row "pg_pay_mode"),
    payment_mode := pyStrip (getCell cols row "payment_mode"),
    status := normalize_status (pyLower (pyStrip (getCell cols row "status"))) }

/-- The composite grouping key of line 144. -/
def keyOf (r : NRecord) : String × String × String × String :=
  (r.client_name, r.client_code, r.pg_pay_mode, r.payment_mode)

/-- Python `round(x, 2)`: round to two decimal places.  (Python rounds
floats half-to-even; rounding mode is irrelevant to every property
proved here, so we use Mathlib's `round`.) -/
def round2 (x : ℚ) : ℚ := (round (x * 100) : ℤ) / 100

/-- One row of the grouped summary table (lines 142–160). -/
structure AggRow where
  client_name : String
  client_code : String
  pg_pay_mode : String
  payment_mode : String
  success : Nat
  failed : Nat
  total : Nat
  rate : ℚ
deriving DecidableEq

/-- The aggregate row of one group key `k`: the `groupby(...).size().unstack(fill_value=0)`
of lines 142–152 yields the per-status counts (a status column missing
from the data is materialized as 0 by the loop at lines 150–152), and
lines 154–155 derive `Total Txn` and `Success %`, the `fillna(0)`
defaulting the rate to 0 on a zero total. -/
def mkRow (rs : List NRecord) (k : String × String × String × String) : AggRow :=
  let s := rs.countP (fun r => decide (keyOf r = k ∧ r.status = "success"))
  let f := rs.countP (fun r => decide (keyOf r = k ∧ r.status = "failed"))
  { client_name := k.1, client_code := k.2.1, pg_pay_mode := k.2.2.1, payment_mode := k.2.2.2,
    success := s, failed := f, total := s + f,
    rate := if s + f = 0 then 0 else round2 ((s : ℚ) / ((s : ℚ) + (f : ℚ)) * 100) }

/-- The grouped summary (lines 142–160): one aggregate row per distinct
key among the filtered records.  (pandas emits group keys in sorted
order; we emit them in first-occurrence order — the claims proved about
the table are order-insensitive or quantify over arbitrary tables.) -/
def summary (rs : List NRecord) : List AggRow :=
  ((rs.map keyOf).dedup).map (mkRow rs)

/-- The three entries of the sort selectbox (line 163): `"ALL"`,
`"Lowest to Highest"`, `"Highest to Lowest"`. -/
inductive SortOption where
  | all
  | lowToHigh
  | highToLow
deriving DecidableEq

/-- Modelled from the spec: lines 164–167 sort via
`pandas.DataFrame.sort_values("Success %", ascending=...)`, an external
library routine whose code is not part of this repository; the spec
specifies a stable sort by success rate, which we model with the stable
`List.mergeSort`. -/
def applySort : SortOption → List AggRow → List AggRow
  | .all, t => t
  | .lowToHigh, t => t.mergeSort (fun a b => decide (a.rate ≤ b.rate))
  | .highToLow, t => t.mergeSort (fun a b => decide (b.rate ≤ a.rate))

/-- The health tiers the spec associates with the three style branches of
`highlight_success`. -/
inductive Tier where
  | healthy
  | warning
  | critical
deriving DecidableEq

/-- The cell background colours of lines 172–177, per tier: green for
`healthy`, yellow for `warning`, red for `critical`. -/
def tierColor : Tier → String
  | .healthy => "#2ecc71"
  | .warning => "#f1c40f"
  | .critical => "#e74c3c"

/-- Translation of `highlight_success` (lines 170–178). -/
def highlight_success (val : ℚ) : String :=
  let color := "white"
  let bgcolor := if val ≥ 95 then "#2ecc71" else if val ≥ 80 then "#f1c40f" else "#e74c3c"
  "background-color: " ++ bgcolor ++ "; color: " ++ color ++ "; font-weight: bold;"

/-- The tier of a success rate, reading the three branches of
`highlight_success` as tiers. -/
def tierOf (val : ℚ) : Tier :=
  if val ≥ 95 then .healthy else if val ≥ 80 then .warning else .critical

/-! ### CSV export (lines 157–160 and 188) -/

/-- Join pieces with a separator character. -/
def joinWith (sep : Char) : List (List Char) → List Char
  | [] => []
  | [x] => x
  | x :: y :: xs => x ++ sep :: joinWith sep (y :: xs)

/-- Split on a separator character (inverse of `joinWith` on
separator-free pieces). -/
def splitOnChar (sep : Char) : List Char → List (List Char)
  | [] => [[]]
  | c :: cs =>
    if c = sep then [] :: splitOnChar sep cs
    else
      match splitOnChar sep cs with
      | [] => [[c]]
      | r :: rs => (c :: r) :: rs

/-- The decimal digit character of `d` (for `d < 10`). -/
def digitChar (d : Nat) : Char := Char.ofNat (48 + d)

/-- Fuelled base-10 rendering. -/
def natCharsAux : Nat → Nat → List Char
  | 0, _ => []
  | fuel + 1, n => if n < 10 then [digitChar n] else natCharsAux fuel (n / 10) ++ [digitChar (n % 10)]

/-- Base-10 rendering of a natural number. -/
def natChars (n : Nat) : List Char := natCharsAux (n + 1) n

/-- Two-digit rendering of `k % 100`. -/
def twoDigits (k : Nat) : List Char := [digitChar (k / 10 % 10), digitChar (k % 10)]

/-- Decimal rendering of a success rate to two decimal places (the exact
float formatting pandas applies is immaterial to the claims; only that
the rendered cell is made of digit, minus and dot characters matters). -/
def rateChars (q : ℚ) : List Char :=
  let n : ℤ := round (q * 100)
  (if n < 0 then ['-'] else []) ++ natChars (n.natAbs / 100) ++ '.' :: twoDigits (n.natAbs % 100)

/-- The CSV header cells, in the fixed column order selected at
lines 157–160. -/
def csvHeaderCells : List (List Char) :=
  ["client_name".data, "client_code".data, "pg_pay_mode".data, "payment_mode".data,
   "success".data, "failed".data, "Total Txn".data, "Success %".data]

/-- The CSV cells of one aggregate row, in the fixed column order of
lines 157–160. -/
def rowCells (r : AggRow) : List (List Char) :=
  [r.client_name.data, r.client_code.data, r.pg_pay_mode.data, r.payment_mode.data,
   natChars r.success, natChars r.failed, natChars r.total, rateChars r.rate]

/-- Translation of `summary.to_csv(index=False)` (line 188): a header
line then one line per row, comma-separated cells, newline-terminated
lines. -/
def csvOf (t : List AggRow) : String :=
  ⟨joinWith '\n' ((csvHeaderCells :: t.map rowCells).map (joinWith ',')) ++ ['\n']⟩

/-- Re-parse a rendered CSV: drop the trailing newline, split into lines,
split each line into cells. -/
def parseCsv (s : String) : List (List (List Char)) :=
  (splitOnChar '\n' s.data.dropLast).map (splitOnChar ',')

/-- A cell that contains neither separator. -/
def cleanCell (l : List Char) : Prop := (',' ∉ l) ∧ ('\n' ∉ l)

/-- Text fields of a row contain no CSV separators (fields needing
quoting are outside the claims' scope). -/
def textFieldsClean (r : AggRow) : Prop :=
  cleanCell r.client_name.data ∧ cleanCell r.client_code.data ∧
  cleanCell r.pg_pay_mode.data ∧ cleanCell r.payment_mode.data

instance (l : List Char) : Decidable (cleanCell l) := by unfold cleanCell; infer_instance

instance (r : AggRow) : Decidable (textFieldsClean r) := by unfold textFieldsClean; infer_instance

/-- Translation of `download_name` (line 189):
`f"PIPE Analysis ({'-'.join(selected_dates)}).csv"`. -/
def downloadName (selected_dates : List String) : String :=
  "PIPE Analysis (" ++ String.intercalate "-" selected_dates ++ ").csv"

/-- Outcome of one run of the script over the concatenated batches:
`errorMissingColumns` is the `st.error` + `st.stop` of lines 97–99,
`warnNoValidTransactions` the `st.warning` + `st.stop` of lines 123–125
(informational, not an error), and `table` the displayed/exported state,
carrying the sorted view, its CSV and the download file name. -/
inductive Outcome where
  | errorMissingColumns (missing : List String)
  | warnNoValidTransactions
  | table (view : List AggRow) (csv : String) (fileName : String)
deriving DecidableEq

/-- Translation of the pipeline from the concatenated frame onward
(lines 92–191): required-column check, normalization, status filtering,
grouping, sorting, CSV rendering and download naming. -/
def runPipeline (batches : List DataFrame) (selected_dates : List String)
    (opt : SortOption) : Outcome :=
  let df := concatDF batches
  let missing := required_cols.filter (fun c => decide (c ∉ df.cols))
  if missing ≠ [] then .errorMissingColumns missing
  else
    let records := df.rows.map (toRecord df.cols)
    let filtered := records.filter (fun r => r.status == "success" || r.status == "failed")
    if filtered = [] then .warnNoValidTransactions
    else
      let view := applySort opt (summary filtered)
      .table view (csvOf view) (downloadName selected_dates)

/-! ### Theorems -/

/-- Mathlib's `round` is monotone on ℚ. -/
theorem round_q_mono {x y : ℚ} (h : x ≤ y) : round x ≤ round y := by
  rw [round_eq, round_eq]
  exact Int.floor_mono (by linarith)

/-- Rounding to two decimals keeps a value of `[0, 100]` inside `[0, 100]`. -/
theorem round2_bounds {x : ℚ} (h0 : 0 ≤ x) (h1 : x ≤ 100) :
    0 ≤ round2 x ∧ round2 x ≤ 100 := by
  constructor
  · apply div_nonneg _ (by norm_num)
    have h : round (0 : ℚ) ≤ round (x * 100) := round_q_mono (by nlinarith)
    rw [round_zero] at h
    exact_mod_cast h
  · rw [round2, div_le_iff₀ (by norm_num : (0:ℚ) < 100)]
    have h : round (x * 100) ≤ round ((10000 : ℚ)) := round_q_mono (by nlinarith)
    rw [show round ((10000 : ℚ)) = 10000 by norm_num [round_eq]] at h
    calc ((round (x * 100) : ℤ) : ℚ) ≤ (10000 : ℚ) := by exact_mod_cast h
      _ = 100 * 100 := by norm_num

/-- Rounding an exact 100 % gives 100. -/
theorem round2_hundred : round2 100 = 100 := by
  norm_num [round2, round_eq]

/-- C1: `normalize_status` buckets every status string into exactly one of
`success`, `failed`, `other`, by case-insensitive substring containment on
the lower-cased, trimmed input, with the `success` test taking precedence
over the `fail` test. -/
theorem normalize_status_buckets (s : String) :
    (normalize_status s = "success" ∨ normalize_status s = "failed" ∨
      normalize_status s = "other") ∧
    (normalize_status s = "success" ↔ pyIn "success" (pyStrip (pyLower s)) = true) ∧
    (normalize_status s = "failed" ↔
      (pyIn "success" (pyStrip (pyLower s)) = false ∧
       pyIn "fail" (pyStrip (pyLower s)) = true)) ∧
    (normalize_status s = "other" ↔
      (pyIn "success" (pyStrip (pyLower s)) = false ∧
       pyIn "fail" (pyStrip (pyLower s)) = false)) := by
  unfold normalize_status
  rcases hsucc : pyIn "success" (pyStrip (pyLower s)) <;>
    rcases hfail : pyIn "fail" (pyStrip (pyLower s)) <;>
      simp [hsucc, hfail]

/-- C2: every aggregate row produced from a non-empty filtered input
satisfies `total = success + failed`, and its success rate
`round2 (success / total * 100)` lies in `[0, 100]`. -/
theorem summary_row_invariants (rs : List NRecord) (hne : rs ≠ [])
    (hf : ∀ r ∈ rs, r.status = "success" ∨ r.status = "failed") :
    ∀ row ∈ summary rs,
      row.total = row.success + row.failed ∧ 0 ≤ row.rate ∧ row.rate ≤ 100 := by
  intro row hrow
  obtain ⟨k, hk, rfl⟩ := List.mem_map.mp hrow
  simp only [mkRow]
  refine ⟨by trivial, ?_⟩
  set s := rs.countP (fun r => decide (keyOf r = k ∧ r.status = "success")) with hs
  set f := rs.countP (fun r => decide (keyOf r = k ∧ r.status = "failed")) with hfd
  by_cases h0 : s + f = 0
  · simp [h0]
  · have hpos : (0 : ℚ) < (s : ℚ) + (f : ℚ) := by
      have : 0 < s + f := Nat.pos_of_ne_zero h0
      push_cast
      exact_mod_cast this
    have hx0 : 0 ≤ (s : ℚ) / ((s : ℚ) + (f : ℚ)) * 100 := by positivity
    have hx1 : (s : ℚ) / ((s : ℚ) + (f : ℚ)) * 100 ≤ 100 := by
      have hle : (s : ℚ) / ((s : ℚ) + (f : ℚ)) ≤ 1 := by
        rw [div_le_one hpos]
        have : (0 : ℚ) ≤ (f : ℚ) := by positivity
        linarith
      nlinarith
    have := round2_bounds hx0 hx1
    simp only [h0, if_false]
    exact this

/-- C2 witness. -/
theorem summary_row_invariants_witness :
    (([(⟨"A", "C1", "BOB", "UPI", "success"⟩ : NRecord),
       ⟨"A", "C1", "BOB", "UPI", "failed"⟩] : List NRecord) ≠ [] ∧
      ∀ r ∈ ([⟨"A", "C1", "BOB", "UPI", "success"⟩,
              ⟨"A", "C1", "BOB", "UPI", "failed"⟩] : List NRecord),
        r.status = "success" ∨ r.status = "failed") ∧
    ∀ row ∈ summary ([⟨"A", "C1", "BOB", "UPI", "success"⟩,
                      ⟨"A", "C1", "BOB", "UPI", "failed"⟩] : List NRecord),
      row.total = row.success + row.failed ∧ 0 ≤ row.rate ∧ row.rate ≤ 100 :=
  ⟨⟨by decide, by decide⟩, summary_row_invariants _ (by decide) (by decide)⟩

/-- C3: aggregation is order-independent — permuting the input records
permutes the summary rows (same multiset of keys and counts). -/
theorem summary_perm_invariant {rs₁ rs₂ : List NRecord} (h : rs₁.Perm rs₂) :
    (summary rs₁).Perm (summary rs₂) := by
  have hmk : mkRow rs₁ = mkRow rs₂ := by
    funext k
    simp only [mkRow, h.countP_eq]
  unfold summary
  rw [hmk]
  exact ((h.map keyOf).dedup).map _

/-- C3 witness. -/
theorem summary_perm_invariant_witness :
    ([(⟨"A", "C1", "BOB", "UPI", "success"⟩ : NRecord),
      ⟨"B", "C2", "HDFC", "NB", "failed"⟩] : List NRecord).Perm
        [⟨"B", "C2", "HDFC", "NB", "failed"⟩, ⟨"A", "C1", "BOB", "UPI", "success"⟩] ∧
    (summary [(⟨"A", "C1", "BOB", "UPI", "success"⟩ : NRecord),
              ⟨"B", "C2", "HDFC", "NB", "failed"⟩]).Perm
      (summary [⟨"B", "C2", "HDFC", "NB", "failed"⟩, ⟨"A", "C1", "BOB", "UPI", "success"⟩]) :=
  ⟨List.Perm.swap _ _ _, summary_perm_invariant (List.Perm.swap _ _ _)⟩

/-- C10: when only one bucketed status occurs in a non-empty filtered
input, each aggregate row still carries both count columns, the absent
status's count being 0 for every group: with all-success records every
row has `failed = 0`, a positive total equal to `success`, and rate
exactly 100; with all-failed records every row has `success = 0`, a
positive total equal to `failed`, and rate 0. -/
theorem summary_single_status (rs : List NRecord) (hne : rs ≠ [])
    (hone : (∀ r ∈ rs, r.status = "success") ∨ (∀ r ∈ rs, r.status = "failed")) :
    ∀ row ∈ summary rs,
      ((∀ r ∈ rs, r.status = "success") →
        row.failed = 0 ∧ 0 < row.success ∧ row.total = row.success ∧ row.rate = 100) ∧
      ((∀ r ∈ rs, r.status = "failed") →
        row.success = 0 ∧ 0 < row.failed ∧ row.total = row.failed ∧ row.rate = 0) := by
  intro row hrow
  obtain ⟨k, hk, rfl⟩ := List.mem_map.mp hrow
  obtain ⟨r0, hr0, rfl⟩ := List.mem_map.mp (List.mem_dedup.mp hk)
  constructor
  · intro hall
    have hf : rs.countP (fun r => decide (keyOf r = keyOf r0 ∧ r.status = "failed")) = 0 := by
      rw [List.countP_eq_zero]
      intro r hr
      simp [hall r hr]
    have hs : 0 < rs.countP (fun r => decide (keyOf r = keyOf r0 ∧ r.status = "success")) := by
      rw [List.countP_pos_iff]
      exact ⟨r0, hr0, by simp [hall r0 hr0]⟩
    have hs0 : rs.countP (fun r => decide (keyOf r = keyOf r0 ∧ r.status = "success")) ≠ 0 :=
      Nat.pos_iff_ne_zero.mp hs
    simp only [mkRow, hf, Nat.add_zero, Nat.cast_zero, add_zero]
    refine ⟨by trivial, hs, by trivial, ?_⟩
    rw [if_neg hs0, div_self (by exact_mod_cast hs0), one_mul, round2_hundred]
  · intro hall
    have hs : rs.countP (fun r => decide (keyOf r = keyOf r0 ∧ r.status = "success")) = 0 := by
      rw [List.countP_eq_zero]
      intro r hr
      simp [hall r hr]
    have hf : 0 < rs.countP (fun r => decide (keyOf r = keyOf r0 ∧ r.status = "failed")) := by
      rw [List.countP_pos_iff]
      exact ⟨r0, hr0, by simp [hall r0 hr0]⟩
    have hf0 : rs.countP (fun r => decide (keyOf r = keyOf r0 ∧ r.status = "failed")) ≠ 0 :=
      Nat.pos_iff_ne_zero.mp hf
    simp only [mkRow, hs, Nat.zero_add, Nat.cast_zero, zero_add]
    refine ⟨by trivial, hf, by trivial, ?_⟩
    rw [if_neg hf0, zero_div, zero_mul]
    norm_num [round2]

/-- C10 witness: an all-success input on the left branch and an
all-failed input exercised through the hypothesis disjunction. -/
theorem summary_single_status_witness :
    (([(⟨"A", "C1", "BOB", "UPI", "failed"⟩ : NRecord)] : List NRecord) ≠ [] ∧
      ((∀ r ∈ ([⟨"A", "C1", "BOB", "UPI", "failed"⟩] : List NRecord), r.status = "success") ∨
       (∀ r ∈ ([⟨"A", "C1", "BOB", "UPI", "failed"⟩] : List NRecord), r.status = "failed"))) ∧
    ∀ row ∈ summary ([⟨"A", "C1", "BOB", "UPI", "failed"⟩] : List NRecord),
      ((∀ r ∈ ([⟨"A", "C1", "BOB", "UPI", "failed"⟩] : List NRecord), r.status = "success") →
        row.failed = 0 ∧ 0 < row.success ∧ row.total = row.success ∧ row.rate = 100) ∧
      ((∀ r ∈ ([⟨"A", "C1", "BOB", "UPI", "failed"⟩] : List NRecord), r.status = "failed") →
        row.success = 0 ∧ 0 < row.failed ∧ row.total = row.failed ∧ row.rate = 0) :=
  ⟨⟨by decide, Or.inr (by decide)⟩,
    summary_single_status _ (by decide) (Or.inr (by decide))⟩

/-- C7: the health classifier is total on `[0, 100]` and partitions it
with inclusive lower bounds: rate ≥ 95 is healthy (green style),
80 ≤ rate < 95 warning (yellow), rate < 80 critical (red); the three
characterizations are mutually exclusive and `highlight_success` styles
by exactly the tier of the rate. -/
theorem tier_partition (q : ℚ) (h0 : 0 ≤ q) (h1 : q ≤ 100) :
    (tierOf q = Tier.healthy ↔ 95 ≤ q) ∧
    (tierOf q = Tier.warning ↔ 80 ≤ q ∧ q < 95) ∧
    (tierOf q = Tier.critical ↔ q < 80) ∧
    highlight_success q =
      "background-color: " ++ tierColor (tierOf q) ++ "; color: white; font-weight: bold;" := by
  have hhl : highlight_success q =
      "background-color: " ++ tierColor (tierOf q) ++ "; color: white; font-weight: bold;" := by
    unfold highlight_success tierOf
    by_cases ha : q ≥ 95
    · rw [if_pos ha, if_pos ha]
      rfl
    · rw [if_neg ha, if_neg ha]
      by_cases hb : q ≥ 80
      · rw [if_pos hb, if_pos hb]
        rfl
      · rw [if_neg hb, if_neg hb]
        rfl
  by_cases ha : 95 ≤ q
  · have ht : tierOf q = Tier.healthy := by rw [tierOf, if_pos ha]
    refine ⟨?_, ?_, ?_, hhl⟩ <;> rw [ht]
    · exact iff_of_true rfl ha
    · exact iff_of_false (by decide) (fun h => absurd ha (not_le.mpr h.2))
    · exact iff_of_false (by decide) (not_lt.mpr (by linarith))
  · by_cases hb : 80 ≤ q
    · have ht : tierOf q = Tier.warning := by rw [tierOf, if_neg ha, if_pos hb]
      refine ⟨?_, ?_, ?_, hhl⟩ <;> rw [ht]
      · exact iff_of_false (by decide) ha
      · exact iff_of_true rfl ⟨hb, not_le.mp ha⟩
      · exact iff_of_false (by decide) (not_lt.mpr hb)
    · have ht : tierOf q = Tier.critical := by rw [tierOf, if_neg ha, if_neg hb]
      refine ⟨?_, ?_, ?_, hhl⟩ <;> rw [ht]
      · exact iff_of_false (by decide) ha
      · exact iff_of_false (by decide) (fun h => absurd h.1 hb)
      · exact iff_of_true rfl (not_le.mp hb)

/-- C7 witness. -/
theorem tier_partition_witness :
    ((0 : ℚ) ≤ 97 ∧ (97 : ℚ) ≤ 100) ∧
    ((tierOf 97 = Tier.healthy ↔ (95 : ℚ) ≤ 97) ∧
     (tierOf 97 = Tier.warning ↔ (80 : ℚ) ≤ 97 ∧ (97 : ℚ) < 95) ∧
     (tierOf 97 = Tier.critical ↔ (97 : ℚ) < 80) ∧
     highlight_success 97 =
       "background-color: " ++ tierColor (tierOf 97) ++ "; color: white; font-weight: bold;") :=
  ⟨⟨by norm_num, by norm_num⟩, tier_partition 97 (by norm_num) (by norm_num)⟩

/-- C9 counterexample: with the single selected batch `"2024-01-01"`, the
code produces `"PIPE Analysis (2024-01-01).csv"` — with spaces — not the
underscored `"PIPE_Analysis_(2024-01-01).csv"` the claim states. -/
theorem downloadName_counterexample :
    downloadName ["2024-01-01"] = "PIPE Analysis (2024-01-01).csv" ∧
    downloadName ["2024-01-01"] ≠ "PIPE_Analysis_(2024-01-01).csv" := by
  constructor
  · decide
  · decide

/-- C9 (amended): for every non-empty selection of batch identifiers, the
download name is `"PIPE Analysis ("`, the identifiers joined with `"-"`,
then `").csv"` — spaces in the stem, not underscores. -/
theorem downloadName_format (dates : List String) (h : dates ≠ []) :
    downloadName dates = "PIPE Analysis (" ++ String.intercalate "-" dates ++ ").csv" := rfl

/-- C9 witness for the amended statement. -/
theorem downloadName_format_witness :
    (["2024-01-01", "2024-01-02"] : List String) ≠ [] ∧
    downloadName ["2024-01-01", "2024-01-02"] =
      "PIPE Analysis (" ++ String.intercalate "-" ["2024-01-01", "2024-01-02"] ++ ").csv" :=
  ⟨by decide, downloadName_format _ (by decide)⟩

/-- C5: if any required column is absent from the concatenated input, the
run halts with the missing-column error naming exactly the absent
required columns (the check is on the concatenated set), and no
aggregation outcome is produced. -/
theorem missing_columns_halt (batches : List DataFrame) (dates : List String)
    (opt : SortOption)
    (h : required_cols.filter (fun c => decide (c ∉ (concatDF batches).cols)) ≠ []) :
    runPipeline batches dates opt =
      .errorMissingColumns
        (required_cols.filter (fun c => decide (c ∉ (concatDF batches).cols))) ∧
    ∀ c, c ∈ required_cols.filter (fun c => decide (c ∉ (concatDF batches).cols)) ↔
      (c ∈ required_cols ∧ c ∉ (concatDF batches).cols) := by
  constructor
  · simp only [runPipeline]
    rw [if_pos h]
  · intro c
    simp [List.mem_filter]

/-- C5 witness: a concatenated input having only `client_code`. -/
theorem missing_columns_halt_witness :
    (required_cols.filter
        (fun c => decide (c ∉ (concatDF [⟨["client_code"], [["C1"]]⟩]).cols)) ≠ []) ∧
    (runPipeline [⟨["client_code"], [["C1"]]⟩] ["2024-01-01"] .all =
      .errorMissingColumns
        (required_cols.filter
          (fun c => decide (c ∉ (concatDF [⟨["client_code"], [["C1"]]⟩]).cols))) ∧
    ∀ c, c ∈ required_cols.filter
          (fun c => decide (c ∉ (concatDF [⟨["client_code"], [["C1"]]⟩]).cols)) ↔
        (c ∈ required_cols ∧ c ∉ (concatDF [⟨["client_code"], [["C1"]]⟩]).cols)) :=
  ⟨by decide, missing_columns_halt _ _ _ (by decide)⟩

/-- C6: when the required columns are present but no row normalizes to a
success or failed status, the run halts in the informational
no-valid-transactions state — a warning, not an error — producing no
aggregate table, no CSV and no download name. -/
theorem no_valid_transactions_halt (batches : List DataFrame) (dates : List String)
    (opt : SortOption)
    (hcols : required_cols.filter (fun c => decide (c ∉ (concatDF batches).cols)) = [])
    (hst : ∀ row ∈ (concatDF batches).rows,
      (toRecord (concatDF batches).cols row).status ≠ "success" ∧
      (toRecord (concatDF batches).cols row).status ≠ "failed") :
    runPipeline batches dates opt = .warnNoValidTransactions := by
  have hfil : ((concatDF batches).rows.map (toRecord (concatDF batches).cols)).filter
      (fun r => r.status == "success" || r.status == "failed") = [] := by
    rw [List.filter_eq_nil_iff]
    intro r hr
    obtain ⟨row, hrow, rfl⟩ := List.mem_map.mp hr
    obtain ⟨h1, h2⟩ := hst row hrow
    simp [h1, h2]
  simp only [runPipeline]
  rw [if_neg (fun hne => hne hcols), if_pos hfil]

/-- C6 witness: all columns present, one `"pending"` row. -/
theorem no_valid_transactions_halt_witness :
    (required_cols.filter
        (fun c => decide (c ∉ (concatDF
          [⟨["client_code", "pg_pay_mode", "payment_mode", "status"],
            [["C1", "BOB", "UPI", "pending"]]⟩]).cols)) = []) ∧
    (∀ row ∈ (concatDF
        [⟨["client_code", "pg_pay_mode", "payment_mode", "status"],
          [["C1", "BOB", "UPI", "pending"]]⟩]).rows,
      (toRecord (concatDF
        [⟨["client_code", "pg_pay_mode", "payment_mode", "status"],
          [["C1", "BOB", "UPI", "pending"]]⟩]).cols row).status ≠ "success" ∧
      (toRecord (concatDF
        [⟨["client_code", "pg_pay_mode", "payment_mode", "status"],
          [["C1", "BOB", "UPI", "pending"]]⟩]).cols row).status ≠ "failed") ∧
    runPipeline
      [⟨["client_code", "pg_pay_mode", "payment_mode", "status"],
        [["C1", "BOB", "UPI", "pending"]]⟩] ["2024-01-01"] .all =
      .warnNoValidTransactions :=
  ⟨by decide, by decide,
    no_valid_transactions_halt _ _ _ (by decide) (by decide)⟩

/-- A filter keyed on a `mergeSort` order whose predicate forces ties is
untouched by the sort (stability, in filter form). -/
theorem mergeSort_filter_eq {α : Type} (le : α → α → Bool)
    (htrans : ∀ a b c, le a b → le b c → le a c)
    (htotal : ∀ a b, le a b || le b a)
    (p : α → Bool) (hp : ∀ a b, p a → p b → le a b)
    (l : List α) : (l.mergeSort le).filter p = l.filter p := by
  have hpw : (l.filter p).Pairwise (fun a b => le a b = true) :=
    List.pairwise_of_forall_mem_list (fun a ha b hb =>
      hp a b (List.of_mem_filter ha) (List.of_mem_filter hb))
  have hsub : List.Sublist (l.filter p) (l.mergeSort le) :=
    List.sublist_mergeSort htrans htotal hpw (List.filter_sublist l)
  have hsub2 : List.Sublist ((l.filter p).filter p) ((l.mergeSort le).filter p) :=
    hsub.filter p
  rw [List.filter_eq_self.mpr (fun a ha => List.of_mem_filter ha)] at hsub2
  have hperm : List.Perm ((l.mergeSort le).filter p) (l.filter p) :=
    (List.mergeSort_perm l le).filter p
  exact (hsub2.eq_of_length hperm.symm.length_eq).symm

/-- The ascending comparator is transitive. -/
theorem leAsc_trans : ∀ a b c : AggRow,
    decide (a.rate ≤ b.rate) → decide (b.rate ≤ c.rate) → decide (a.rate ≤ c.rate) := by
  intro a b c hab hbc
  simp only [decide_eq_true_eq] at *
  exact le_trans hab hbc

/-- The ascending comparator is total. -/
theorem leAsc_total : ∀ a b : AggRow,
    decide (a.rate ≤ b.rate) || decide (b.rate ≤ a.rate) := by
  intro a b
  simp only [Bool.or_eq_true, decide_eq_true_eq]
  exact le_total _ _

/-- The descending comparator is transitive. -/
theorem leDesc_trans : ∀ a b c : AggRow,
    decide (b.rate ≤ a.rate) → decide (c.rate ≤ b.rate) → decide (c.rate ≤ a.rate) := by
  intro a b c hab hbc
  simp only [decide_eq_true_eq] at *
  exact le_trans hbc hab

/-- The descending comparator is total. -/
theorem leDesc_total : ∀ a b : AggRow,
    decide (b.rate ≤ a.rate) || decide (a.rate ≤ b.rate) := by
  intro a b
  simp only [Bool.or_eq_true, decide_eq_true_eq]
  exact le_total _ _

/-- C4: the view sort is a stable sort by success rate: for each rate
value the rows carrying it keep their pre-sort relative order (their
subsequence is unchanged), in both directions; and when no two rows tie,
sorting ascending and reversing coincides with sorting descending. -/
theorem applySort_stable (t : List AggRow) :
    (∀ q : ℚ,
      (applySort .lowToHigh t).filter (fun r => decide (r.rate = q)) =
        t.filter (fun r => decide (r.rate = q)) ∧
      (applySort .highToLow t).filter (fun r => decide (r.rate = q)) =
        t.filter (fun r => decide (r.rate = q))) ∧
    (t.Pairwise (fun a b => a.rate ≠ b.rate) →
      (applySort .lowToHigh t).reverse = applySort .highToLow t) := by
  constructor
  · intro q
    constructor
    · exact mergeSort_filter_eq _ leAsc_trans leAsc_total _
        (fun a b ha hb => by
          simp only [decide_eq_true_eq] at *
          rw [ha, hb]) t
    · exact mergeSort_filter_eq _ leDesc_trans leDesc_total _
        (fun a b ha hb => by
          simp only [decide_eq_true_eq] at *
          rw [ha, hb]) t
  · intro hdist
    have hsymm : ∀ {x y : AggRow}, x.rate ≠ y.rate → y.rate ≠ x.rate := fun h => h.symm
    have pA : (t.mergeSort (fun a b => decide (a.rate ≤ b.rate))).Pairwise
        (fun a b => a.rate ≤ b.rate) :=
      (List.sorted_mergeSort leAsc_trans leAsc_total t).imp
        (fun h => decide_eq_true_eq.mp h)
    have pD : (t.mergeSort (fun a b => decide (b.rate ≤ a.rate))).Pairwise
        (fun a b => b.rate ≤ a.rate) :=
      (List.sorted_mergeSort leDesc_trans leDesc_total t).imp
        (fun h => decide_eq_true_eq.mp h)
    have dA : (t.mergeSort (fun a b => decide (a.rate ≤ b.rate))).Pairwise
        (fun a b => a.rate ≠ b.rate) :=
      ((List.mergeSort_perm t _).pairwise_iff hsymm).mpr hdist
    have dD : (t.mergeSort (fun a b => decide (b.rate ≤ a.rate))).Pairwise
        (fun a b => a.rate ≠ b.rate) :=
      ((List.mergeSort_perm t _).pairwise_iff hsymm).mpr hdist
    have sA : (t.mergeSort (fun a b => decide (a.rate ≤ b.rate))).Pairwise
        (fun a b => a.rate < b.rate) :=
      (pA.and dA).imp (fun h => lt_of_le_of_ne h.1 h.2)
    have sD : (t.mergeSort (fun a b => decide (b.rate ≤ a.rate))).Pairwise
        (fun a b => b.rate < a.rate) :=
      (pD.and dD).imp (fun h => lt_of_le_of_ne h.1 (Ne.symm h.2))
    have sRev : ((t.mergeSort (fun a b => decide (a.rate ≤ b.rate))).reverse).Pairwise
        (fun a b => b.rate < a.rate) := List.pairwise_reverse.mpr sA
    have hperm : List.Perm (t.mergeSort (fun a b => decide (a.rate ≤ b.rate))).reverse
        (t.mergeSort (fun a b => decide (b.rate ≤ a.rate))) :=
      ((List.reverse_perm _).trans (List.mergeSort_perm t _)).trans
        (List.mergeSort_perm t _).symm
    haveI : IsAntisymm AggRow (fun a b => b.rate < a.rate) :=
      ⟨fun a b h1 h2 => absurd (lt_trans h1 h2) (lt_irrefl _)⟩
    exact List.eq_of_perm_of_sorted hperm sRev sD

/-- C4 witness: a two-row table with distinct rates. -/
theorem applySort_stable_witness :
    (((applySort .lowToHigh
        [(⟨"A", "C1", "BOB", "UPI", 4, 1, 5, 80⟩ : AggRow),
         ⟨"B", "C2", "HDFC", "NB", 1, 1, 2, 50⟩]).filter (fun r => decide (r.rate = 50)) =
      ([(⟨"A", "C1", "BOB", "UPI", 4, 1, 5, 80⟩ : AggRow),
        ⟨"B", "C2", "HDFC", "NB", 1, 1, 2, 50⟩]).filter (fun r => decide (r.rate = 50)) ∧
      (applySort .highToLow
        [(⟨"A", "C1", "BOB", "UPI", 4, 1, 5, 80⟩ : AggRow),
         ⟨"B", "C2", "HDFC", "NB", 1, 1, 2, 50⟩]).filter (fun r => decide (r.rate = 50)) =
      ([(⟨"A", "C1", "BOB", "UPI", 4, 1, 5, 80⟩ : AggRow),
        ⟨"B", "C2", "HDFC", "NB", 1, 1, 2, 50⟩]).filter (fun r => decide (r.rate = 50))) ∧
     ([(⟨"A", "C1", "BOB", "UPI", 4, 1, 5, 80⟩ : AggRow),
       ⟨"B", "C2", "HDFC", "NB", 1, 1, 2, 50⟩] : List AggRow).Pairwise
        (fun a b => a.rate ≠ b.rate) ∧
     (applySort .lowToHigh
        [(⟨"A", "C1", "BOB", "UPI", 4, 1, 5, 80⟩ : AggRow),
         ⟨"B", "C2", "HDFC", "NB", 1, 1, 2, 50⟩]).reverse =
      applySort .highToLow
        [(⟨"A", "C1", "BOB", "UPI", 4, 1, 5, 80⟩ : AggRow),
         ⟨"B", "C2", "HDFC", "NB", 1, 1, 2, 50⟩]) :=
  ⟨(applySort_stable _).1 50,
   by simp [List.pairwise_cons],
   (applySort_stable _).2 (by simp [List.pairwise_cons])⟩

/-- Splitting a separator-free piece returns just that piece. -/
theorem splitOnChar_of_not_mem {sep : Char} {l : List Char} (h : sep ∉ l) :
    splitOnChar sep l = [l] := by
  induction l with
  | nil => rfl
  | cons c cs ih =>
    have hc : c ≠ sep := fun hc => h (hc ▸ List.mem_cons_self c cs)
    have hcs : sep ∉ cs := fun hm => h (List.mem_cons_of_mem c hm)
    simp only [splitOnChar, if_neg hc, ih hcs]

/-- Splitting past a leading separator-free piece peels it off. -/
theorem splitOnChar_append {sep : Char} {x r : List Char} (h : sep ∉ x) :
    splitOnChar sep (x ++ sep :: r) = x :: splitOnChar sep r := by
  induction x with
  | nil => simp [splitOnChar]
  | cons c cs ih =>
    have hc : c ≠ sep := fun hc => h (hc ▸ List.mem_cons_self c cs)
    have hcs : sep ∉ cs := fun hm => h (List.mem_cons_of_mem c hm)
    simp only [List.cons_append, splitOnChar, if_neg hc]
    rw [show cs.append (sep :: r) = cs ++ sep :: r from rfl, ih hcs]

/-- Splitting inverts joining when every piece is separator-free. -/
theorem splitOnChar_joinWith {sep : Char} {xs : List (List Char)} (hne : xs ≠ [])
    (h : ∀ x ∈ xs, sep ∉ x) : splitOnChar sep (joinWith sep xs) = xs := by
  induction xs with
  | nil => exact absurd rfl hne
  | cons x t ih =>
    cases t with
    | nil => exact splitOnChar_of_not_mem (h x (List.mem_cons_self x []))
    | cons y t2 =>
      rw [joinWith, splitOnChar_append (h x (List.mem_cons_self x (y :: t2))),
        ih (by simp) (fun z hz => h z (List.mem_cons_of_mem x hz))]

/-- Every character of a join is the separator or comes from a piece. -/
theorem mem_joinWith {sep c : Char} :
    ∀ {xs : List (List Char)}, c ∈ joinWith sep xs → c = sep ∨ ∃ x ∈ xs, c ∈ x := by
  intro xs
  induction xs with
  | nil => intro h; simp [joinWith] at h
  | cons x t ih =>
    cases t with
    | nil =>
      intro h
      right
      exact ⟨x, List.mem_cons_self x [], by simpa [joinWith] using h⟩
    | cons y t2 =>
      intro h
      rw [joinWith] at h
      rcases List.mem_append.mp h with h1 | h2
      · right
        exact ⟨x, List.mem_cons_self x (y :: t2), h1⟩
      · rcases List.mem_cons.mp h2 with h3 | h4
        · left
          exact h3
        · rcases ih h4 with h5 | ⟨z, hz, hcz⟩
          · left
            exact h5
          · right
            exact ⟨z, List.mem_cons_of_mem x hz, hcz⟩

/-- A digit character is neither a comma nor a newline. -/
theorem digitChar_clean {d : Nat} (h : d < 10) :
    digitChar d ≠ ',' ∧ digitChar d ≠ '\n' := by
  interval_cases d <;> exact ⟨by decide, by decide⟩

/-- Every character of the fuelled rendering is a digit character. -/
theorem natCharsAux_mem : ∀ (fuel n : Nat) {c : Char}, c ∈ natCharsAux fuel n →
    ∃ d, d < 10 ∧ c = digitChar d := by
  intro fuel
  induction fuel with
  | zero =>
    intro n c h
    simp [natCharsAux] at h
  | succ f ih =>
    intro n c h
    rw [natCharsAux] at h
    by_cases h10 : n < 10
    · rw [if_pos h10] at h
      simp only [List.mem_singleton] at h
      exact ⟨n, h10, h⟩
    · rw [if_neg h10] at h
      rcases List.mem_append.mp h with h1 | h2
      · exact ih _ h1
      · simp only [List.mem_singleton] at h2
        exact ⟨n % 10, Nat.mod_lt _ (by norm_num), h2⟩

/-- Rendered naturals contain no CSV separators. -/
theorem natChars_clean (n : Nat) : cleanCell (natChars n) := by
  refine ⟨fun hmem => ?_, fun hmem => ?_⟩
  · obtain ⟨d, hd, hc⟩ := natCharsAux_mem _ _ hmem
    exact (digitChar_clean hd).1 hc.symm
  · obtain ⟨d, hd, hc⟩ := natCharsAux_mem _ _ hmem
    exact (digitChar_clean hd).2 hc.symm

/-- Every character of a rendered rate is a minus, a dot or a digit. -/
theorem rateChars_mem {c : Char} {q : ℚ} (h : c ∈ rateChars q) :
    c = '-' ∨ c = '.' ∨ ∃ d, d < 10 ∧ c = digitChar d := by
  simp only [rateChars, twoDigits] at h
  rcases List.mem_append.mp h with h1 | h1
  · rcases List.mem_append.mp h1 with h2 | h2
    · left
      by_cases hn : round (q * 100) < 0
      · rw [if_pos hn] at h2
        simpa using h2
      · rw [if_neg hn] at h2
        simp at h2
    · right; right
      exact natCharsAux_mem _ _ h2
  · rcases List.mem_cons.mp h1 with h3 | h4
    · right; left
      exact h3
    · right; right
      rcases List.mem_cons.mp h4 with h5 | h6
      · exact ⟨_, Nat.mod_lt _ (by norm_num), h5⟩
      · simp only [List.mem_singleton] at h6
        exact ⟨_, Nat.mod_lt _ (by norm_num), h6⟩

/-- Rendered rates contain no CSV separators. -/
theorem rateChars_clean (q : ℚ) : cleanCell (rateChars q) := by
  refine ⟨fun hmem => ?_, fun hmem => ?_⟩
  · rcases rateChars_mem hmem with hc | hc | ⟨d, hd, hc⟩
    · exact absurd hc (by decide)
    · exact absurd hc (by decide)
    · exact (digitChar_clean hd).1 hc.symm
  · rcases rateChars_mem hmem with hc | hc | ⟨d, hd, hc⟩
    · exact absurd hc (by decide)
    · exact absurd hc (by decide)
    · exact (digitChar_clean hd).2 hc.symm

/-- C8: the CSV export of the active view parses back to a header row in
the fixed column order (client name, code, route, payment mode, success,
failed, total, rate) followed by one cell row per view row, in the
view's (sorted) order — provided the free-text fields contain no
delimiter characters. -/
theorem csv_export_parses (opt : SortOption) (t : List AggRow)
    (h : ∀ r ∈ t, textFieldsClean r) :
    parseCsv (csvOf (applySort opt t)) =
      csvHeaderCells :: (applySort opt t).map rowCells := by
  have hmemv : ∀ r ∈ applySort opt t, textFieldsClean r := by
    intro r hr
    apply h
    cases opt with
    | all => exact hr
    | lowToHigh => exact List.mem_mergeSort.mp hr
    | highToLow => exact List.mem_mergeSort.mp hr
  have hcells : ∀ cells ∈ csvHeaderCells :: (applySort opt t).map rowCells,
      cells ≠ [] ∧ ∀ cell ∈ cells, cleanCell cell := by
    intro cells hc
    rcases List.mem_cons.mp hc with rfl | hc2
    · exact ⟨by decide, by decide⟩
    · obtain ⟨r, hr, rfl⟩ := List.mem_map.mp hc2
      obtain ⟨h1, h2, h3, h4⟩ := hmemv r hr
      refine ⟨by simp [rowCells], ?_⟩
      intro cell hcell
      simp only [rowCells, List.mem_cons, List.not_mem_nil, or_false] at hcell
      rcases hcell with rfl | rfl | rfl | rfl | rfl | rfl | rfl | rfl
      exacts [h1, h2, h3, h4, natChars_clean _, natChars_clean _, natChars_clean _,
        rateChars_clean _]
  have hlines : ∀ line ∈ (csvHeaderCells :: (applySort opt t).map rowCells).map (joinWith ','),
      '\n' ∉ line := by
    intro line hl
    obtain ⟨cells, hc, rfl⟩ := List.mem_map.mp hl
    intro hmem
    rcases mem_joinWith hmem with hc2 | ⟨cell, hcell, hmem2⟩
    · exact absurd hc2 (by decide)
    · exact ((hcells cells hc).2 cell hcell).2 hmem2
  have hsplit : ∀ cells ∈ csvHeaderCells :: (applySort opt t).map rowCells,
      splitOnChar ',' (joinWith ',' cells) = cells := fun cells hc =>
    splitOnChar_joinWith (hcells cells hc).1
      (fun cell hcell hmem => ((hcells cells hc).2 cell hcell).1 hmem)
  unfold parseCsv csvOf
  rw [show (String.mk (joinWith '\n'
      ((csvHeaderCells :: (applySort opt t).map rowCells).map (joinWith ',')) ++ ['\n'])).data =
    joinWith '\n' ((csvHeaderCells :: (applySort opt t).map rowCells).map (joinWith ',')) ++
      ['\n'] from rfl]
  rw [List.dropLast_concat, splitOnChar_joinWith (by simp) hlines, List.map_map]
  calc List.map (splitOnChar ',' ∘ joinWith ',') (csvHeaderCells :: (applySort opt t).map rowCells)
      = List.map id (csvHeaderCells :: (applySort opt t).map rowCells) :=
        List.map_congr_left (fun a ha => hsplit a ha)
    _ = csvHeaderCells :: (applySort opt t).map rowCells := List.map_id _

/-- C8 witness. -/
theorem csv_export_parses_witness :
    (∀ r ∈ ([(⟨"A", "C1", "BOB", "UPI", 1, 1, 2, 50⟩ : AggRow)] : List AggRow),
      textFieldsClean r) ∧
    parseCsv (csvOf (applySort .all [(⟨"A", "C1", "BOB", "UPI", 1, 1, 2, 50⟩ : AggRow)])) =
      csvHeaderCells ::
        (applySort .all [(⟨"A", "C1", "BOB", "UPI", 1, 1, 2, 50⟩ : AggRow)]).map rowCells :=
  ⟨by decide, csv_export_parses _ _ (by decide)⟩

end PipeAnalysis
